/-
Verification of the RoD-Client core components against their specification.

Shallow embedding of:
  * src/ansi_renderer.py — the streaming ANSI escape-sequence renderer
    (AnsiRenderer.write, _insert, _apply_sgr, color_from_ansi, xterm_color,
    _get_colors), and
  * src/core_network.py — the Telnet protocol negotiator
    (NetworkClient._on_option, send_naws, send_line, close, _strip_iac).

Python strings are modelled as `List Char`, Python ints as `Int` (or `Nat`
where the source value is provably a count or a parsed digit string), byte
buffers as `List Nat`.  Fallible Python code (the `int()` conversion inside
`write`, which can raise `ValueError`) is modelled with `Except`.  The Tk
text widget that `AnsiRenderer` drives is modelled by its observable
document content (the test suite's `_FakeText` double uses the same model):
`insert("end", text)` appends, and the carriage-return erase deletes the
content of the last line.  The tag cache of `_ensure_tag` is pure
memoisation with no observable effect and is not modelled.
-/
import Mathlib

namespace RoD

/-! ## Color model (src/ansi_renderer.py lines 163-196)

In the Python source a color held in `self.fg` / `self.bg` is `None`, a
plain `int`, or a tagged tuple `("xterm", n)` / `("rgb", r, g, b)`.  We
model the non-`None` values as an inductive type. -/

/-- A color value as stored by the renderer: a named/indexed palette code
(an `int` in the source), an xterm-256 index (`("xterm", n)` tuple), or a
true-color triple (`("rgb", r, g, b)` tuple). -/
inductive ColorCode where
  | named : Int → ColorCode
  | xterm : Int → ColorCode
  | rgb : Int → Int → Int → ColorCode
deriving DecidableEq, Repr

/-- The hexadecimal digit characters used by Python's `%x` formatting. -/
def hexDigit (n : Nat) : Char :=
  if n < 10 then Char.ofNat (48 + n) else Char.ofNat (97 + (n - 10))

/-- Models Python's `f"{n:02x}"` for `0 ≤ n ≤ 255` (every call site in the
source clamps its argument to that range first). -/
def hex2 (n : Nat) : String :=
  String.mk [hexDigit (n / 16), hexDigit (n % 16)]

/-- The 16-entry ANSI palette literal from `color_from_ansi`
(src/ansi_renderer.py lines 172-177). -/
def palette : List String :=
  ["#000000", "#aa0000", "#00aa00", "#aa5500",
   "#0000aa", "#aa00aa", "#00aaaa", "#aaaaaa",
   "#555555", "#ff5555", "#55ff55", "#ffff55",
   "#5555ff", "#ff55ff", "#55ffff", "#ffffff"]

/-- The named-palette lookup at the end of `color_from_ansi`:
`idx = max(0, min(15, int(code))); return palette[idx]`.  Shared with the
`0 ≤ n ≤ 15` branch of `xterm_color`, which calls back into
`color_from_ansi` with a plain int. -/
def namedColor (code : Int) : String :=
  palette.getD (max 0 (min 15 code)).toNat ""

/-- Clamp an int to one byte, as in `max(0, min(255, v))`. -/
def clamp255 (v : Int) : Nat := (max 0 (min 255 v)).toNat

/-- The cube-component helper `comp` inside `xterm_color`:
`55 + v * 40 if v > 0 else 0`. -/
def comp (v : Int) : Nat := if 0 < v then (55 + v * 40).toNat else 0

/-- Embedding of `xterm_color` (src/ansi_renderer.py lines 182-196). -/
def xterm_color (n : Int) : String :=
  if 0 ≤ n ∧ n ≤ 15 then namedColor n
  else if 16 ≤ n ∧ n ≤ 231 then
    let m := n - 16
    "#" ++ hex2 (comp ((m / 36) % 6)) ++ hex2 (comp ((m / 6) % 6)) ++ hex2 (comp (m % 6))
  else if 232 ≤ n ∧ n ≤ 255 then
    let v := (8 + (n - 232) * 10).toNat
    "#" ++ hex2 v ++ hex2 v ++ hex2 v
  else "#ffffff"

set_option linter.unusedVariables false in
/-- Embedding of `color_from_ansi` (src/ansi_renderer.py lines 163-179).
The source declares a `bold` parameter but its body never reads it; the
embedding reproduces that faithfully (the parameter is ignored). -/
def color_from_ansi (code : ColorCode) (bold : Bool) : String :=
  match code with
  | .xterm n => xterm_color (max 0 (min 255 n))
  | .rgb r g b => "#" ++ hex2 (clamp255 r) ++ hex2 (clamp255 g) ++ hex2 (clamp255 b)
  | .named c => namedColor c

/-- Embedding of `AnsiRenderer._get_colors` (src/ansi_renderer.py lines
20-27): default substitution, per-channel resolution (`bold` is forwarded
for the foreground, literal `False` for the background), then the inverse
swap. -/
def _get_colors (fg bg : Option ColorCode) (bold inverse : Bool) : String × String :=
  let fg_color := match fg with
    | none => "#dddddd"
    | some c => color_from_ansi c bold
  let bg_color := match bg with
    | none => "#111111"
    | some c => color_from_ansi c false
  if inverse then (bg_color, fg_color) else (fg_color, bg_color)

/-! ## Style state and SGR interpretation (src/ansi_renderer.py lines 13-18, 110-160) -/

/-- The five display attributes held on the renderer (`self.fg`, `self.bg`,
`self.bold`, `self.underline`, `self.inverse`). -/
structure Style where
  fg : Option ColorCode
  bg : Option ColorCode
  bold : Bool
  underline : Bool
  inverse : Bool
deriving DecidableEq, Repr

/-- Embedding of `AnsiRenderer.reset` (src/ansi_renderer.py lines 13-18): all attributes
to their defaults. -/
def styleReset : Style := ⟨none, none, false, false, false⟩

/-- The `38`/`48` extended-color lookahead of `_apply_sgr`
(src/ansi_renderer.py lines 142-159), on the parameters following the
`38`/`48` itself: the updated style and how many following parameters were
consumed — two extra when the `5;<v>` shape is present (`i += 2`), four
when the `2;<r>;<g>;<b>` shape is present (`i += 4`), zero otherwise (the
loop's own `i += 1` is accounted by the caller consuming the head).  A
`None` among the value parameters leaves the style unchanged but still
consumes the shape, as in the source. -/
def sgrExt (st : Style) (p : Nat) (rest : List (Option Nat)) : Style × Nat :=
  match rest with
  | some 5 :: v? :: _ =>
    let st1 := match v? with
      | none => st
      | some v =>
        if p = 38 then { st with fg := some (.xterm (v : Int)) }
        else { st with bg := some (.xterm (v : Int)) }
    (st1, 2)
  | some 2 :: r? :: g? :: b? :: _ =>
    let st1 := match r?, g?, b? with
      | some r, some g, some b =>
        if p = 38 then { st with fg := some (.rgb (r : Int) (g : Int) (b : Int)) }
        else { st with bg := some (.rgb (r : Int) (g : Int) (b : Int)) }
      | _, _, _ => st
    (st1, 4)
  | _ => (st, 0)

/-- The parameter-scanning `while` loop of `_apply_sgr`
(src/ansi_renderer.py lines 113-160).  A list element is `none` for an
empty (defaulted) parameter, `some k` for a parsed decimal parameter; the
head is read as `0` when `none` (`p = params[i] if params[i] is not None
else 0`).  `sgrExt` above performs the `38`/`48` lookahead and reports how
many extra parameters to skip. -/
def sgrLoop (st : Style) : List (Option Nat) → Style
  | [] => st
  | p? :: rest =>
    let p := p?.getD 0
    if p = 0 then sgrLoop styleReset rest
    else if p = 1 then sgrLoop { st with bold := true } rest
    else if p = 4 then sgrLoop { st with underline := true } rest
    else if p = 7 then sgrLoop { st with inverse := true } rest
    else if p = 22 then sgrLoop { st with bold := false } rest
    else if p = 24 then sgrLoop { st with underline := false } rest
    else if p = 27 then sgrLoop { st with inverse := false } rest
    else if p = 39 then sgrLoop { st with fg := none } rest
    else if p = 49 then sgrLoop { st with bg := none } rest
    else if 30 ≤ p ∧ p ≤ 37 then sgrLoop { st with fg := some (.named ((p : Int) - 30)) } rest
    else if 90 ≤ p ∧ p ≤ 97 then sgrLoop { st with fg := some (.named ((p : Int) - 90 + 8)) } rest
    else if 40 ≤ p ∧ p ≤ 47 then sgrLoop { st with bg := some (.named ((p : Int) - 40)) } rest
    else if 100 ≤ p ∧ p ≤ 107 then sgrLoop { st with bg := some (.named ((p : Int) - 100 + 8)) } rest
    else if p = 38 ∨ p = 48 then sgrLoop (sgrExt st p rest).1 (rest.drop (sgrExt st p rest).2)
    else sgrLoop st rest
termination_by l => l.length
decreasing_by all_goals (simp [List.length, List.length_drop]; try omega)

/-- The parameter shapes after a `38`/`48` that the extended-color arm
does NOT consume (observation function for the claims): neither
`5;<v>` nor `2;<r>;<g>;<b>` with all following parameters present. -/
def extShapeShort (rest : List (Option Nat)) : Bool :=
  match rest with
  | some 5 :: _ :: _ => false
  | some 2 :: _ :: _ :: _ :: _ => false
  | _ => true

/-- Embedding of `AnsiRenderer._apply_sgr` (src/ansi_renderer.py lines
110-160): an empty parameter list is replaced by `[0]` before the loop. -/
def _apply_sgr (st : Style) (params : List (Option Nat)) : Style :=
  sgrLoop st (if params.isEmpty then [some 0] else params)

/-! ## Python character/int semantics used by `write`

`AnsiRenderer.write` classifies characters with `str.isdigit()` and later
converts the accumulated run with `int()`.  These two do not agree on all
of Unicode: `str.isdigit` is true for every character with
`Numeric_Type=Digit` or `Numeric_Type=Decimal`, while `int()` accepts only
`Numeric_Type=Decimal` characters, so for example `"²".isdigit()` is
`True` but `int("²")` raises `ValueError`.  The embedding models these two
functions exactly on the character universe consisting of all ASCII
characters plus the Latin-1 superscript digits U+00B9 (¹), U+00B2 (²),
U+00B3 (³); characters outside this universe (other Unicode numerics) are
not distinguished by the model. -/

/-- The exception `write` can raise: `int()`'s `ValueError` on a parameter
run that `str.isdigit` accepted but `int` rejects. -/
inductive PyErr where
  | valueError
deriving DecidableEq, Repr

/-- Models Python `str.isdigit()` on a single character, over the modelled
universe (ASCII plus the superscript digits ¹ ² ³, which have
`Numeric_Type=Digit` and therefore satisfy `isdigit`). -/
def pyIsDigit (c : Char) : Bool :=
  c.isDigit || c = '¹' || c = '²' || c = '³'

/-- The numeric value of an ASCII decimal digit run (what Python `int()`
returns on a string of ASCII digits). -/
def digitsVal (l : List Char) : Nat :=
  l.foldl (fun a c => a * 10 + (c.toNat - 48)) 0

/-- Models Python `int(num)` for the non-empty digit runs `write` builds:
succeeds on ASCII decimal digits, raises `ValueError` when the run holds a
digit-classified character that is not a decimal digit (such as ²). -/
def pyInt (l : List Char) : Except PyErr Nat :=
  if l.all Char.isDigit then .ok (digitsVal l) else .error .valueError

/-- One appended CSI parameter: `int(num) if num else None`
(src/ansi_renderer.py lines 68 and 72). -/
def numToParam (num : List Char) : Except PyErr (Option Nat) :=
  if num.isEmpty then .ok none
  else (pyInt num).map some

/-- Outcome of the inner CSI-parameter loop of `write`
(src/ansi_renderer.py lines 60-76): the input ended before a mode byte
(`more`), a mode byte was found (`done`, with remaining input), or `int()`
raised (`err`). -/
inductive CsiOut where
  | more
  | done (params : List (Option Nat)) (mode : Char) (rest : List Char)
  | err
deriving DecidableEq, Repr

/-- The inner CSI loop of `write`: accumulate `;`-separated decimal
parameter runs until a non-digit non-`;` character, the mode byte.  The
trailing run is appended before the mode byte only when `num or params` is
truthy (src/ansi_renderer.py line 71). -/
def parseCsi (ps : List (Option Nat)) (num : List Char) : List Char → CsiOut
  | [] => .more
  | c :: rest =>
    if pyIsDigit c then parseCsi ps (num ++ [c]) rest
    else if c = ';' then
      match numToParam num with
      | .error _ => .err
      | .ok p => parseCsi (ps ++ [p]) [] rest
    else
      if num.isEmpty && ps.isEmpty then .done ps c rest
      else
        match numToParam num with
        | .error _ => .err
        | .ok p => .done (ps ++ [p]) c rest

/-- The remaining input returned by a completed CSI parse is strictly
shorter than the parsed input (the mode byte was consumed); this bounds the
recursion of `write`'s scanning loop. -/
theorem parseCsi_done_length (l : List Char) : ∀ ps num ps2 m r,
    parseCsi ps num l = .done ps2 m r → r.length < l.length := by
  induction l with
  | nil => intro ps num ps2 m r h; simp [parseCsi] at h
  | cons c rest ih =>
    intro ps num ps2 m r h
    simp only [parseCsi] at h
    split at h
    · exact Nat.lt_trans (ih _ _ _ _ _ h) (Nat.lt_succ_self _)
    · split at h
      · split at h
        · exact absurd h (by simp)
        · exact Nat.lt_trans (ih _ _ _ _ _ h) (Nat.lt_succ_self _)
      · split at h
        · obtain ⟨-, -, h⟩ := CsiOut.done.inj h
          simp [← h, Nat.lt_succ_self]
        · split at h
          · exact absurd h (by simp)
          · obtain ⟨-, -, h⟩ := CsiOut.done.inj h
            simp [← h, Nat.lt_succ_self]

/-! ## Renderer state and `write` (src/ansi_renderer.py lines 4-108) -/

/-- The renderer's state together with the observable state of the Tk text
widget it drives: `style` bundles the five display attributes, `carriage`
is `self._carriage_return`, `pendingEsc` is `self._pending_esc`, `doc` is
the widget's document content, and `emitted` is the concatenation of every
text run passed to `_insert` (the emitted-run log). -/
structure RendererState where
  style : Style
  carriage : Bool
  pendingEsc : List Char
  doc : List Char
  emitted : List Char
deriving DecidableEq, Repr

/-- A fresh renderer on an empty widget (`AnsiRenderer.__init__`). -/
def initState : RendererState :=
  ⟨styleReset, false, [], [], []⟩

/-- Deleting the current display line: `delete(end-1c linestart,
end-1c lineend)` removes the content of the last line of the document
(everything after the final newline; the whole document when it has no
newline).  This matches Tk's behaviour and the `_FakeText.delete` model in
the repository's unit tests. -/
def dropLastLine (doc : List Char) : List Char :=
  (doc.reverse.dropWhile (fun c => c ≠ '\n')).reverse

/-- The content of the last display line (everything after the final
newline): the reading function for the carriage-return claims. -/
def lastLine (doc : List Char) : List Char :=
  (doc.reverse.takeWhile (fun c => c ≠ '\n')).reverse

/-- Embedding of `AnsiRenderer._insert` (src/ansi_renderer.py lines
101-108): a pending carriage return first erases the current (last)
display line and clears the flag, then the text is appended at the end.
The run is also appended to the emitted-run log. -/
def _insert (st : RendererState) (text : List Char) : RendererState :=
  let st1 := if st.carriage then { st with doc := dropLastLine st.doc, carriage := false } else st
  { st1 with doc := st1.doc ++ text, emitted := st1.emitted ++ text }

/-- The `if buf: self._insert("".join(buf))` flush points of `write`. -/
def flushBuf (st : RendererState) (buf : List Char) : RendererState :=
  if buf.isEmpty then st else _insert st buf

set_option linter.unusedVariables false in
/-- The scanning `while` loop of `AnsiRenderer.write`
(src/ansi_renderer.py lines 44-99), with `buf` the accumulating literal
run.  An `ESC` as final character defers itself to the next call; `ESC [`
flushes the run and parses a CSI, buffering the entire unconsumed tail on
an incomplete parse and applying SGR on mode `m` (other modes are consumed
without effect); an `ESC` not followed by `[` is literal; `\r` flushes the
run and sets the carriage flag; any other character extends the run, which
is flushed at end of input. -/
def writeLoop (st : RendererState) (buf : List Char) : List Char → Except PyErr RendererState
  | [] => .ok (flushBuf st buf)
  | c :: rest =>
    if c = '\x1b' then
      match rest with
      | [] => .ok (flushBuf { st with pendingEsc := [c] } buf)
      | c2 :: rest2 =>
        if c2 = '[' then
          let st1 := flushBuf st buf
          match hpc : parseCsi [] [] rest2 with
          | .err => .error .valueError
          | .more => .ok { st1 with pendingEsc := c :: c2 :: rest2 }
          | .done ps mode rest3 =>
            let st2 := if mode = 'm' then { st1 with style := _apply_sgr st1.style ps } else st1
            writeLoop st2 [] rest3
        else writeLoop st (buf ++ [c]) (c2 :: rest2)
    else if c = '\r' then
      writeLoop { flushBuf st buf with carriage := true } [] rest
    else writeLoop st (buf ++ [c]) rest
termination_by l => l.length
decreasing_by
  · have h := parseCsi_done_length _ _ _ _ _ _ hpc
    simp only [List.length]
    omega
  · simp only [List.length]
    omega
  · simp only [List.length]
    omega
  · simp only [List.length]
    omega

/-- Embedding of `AnsiRenderer.write` (src/ansi_renderer.py lines 39-99):
any buffered partial escape sequence is prepended to the input and the
buffer cleared, then the input is scanned. -/
def write (st : RendererState) (s : List Char) : Except PyErr RendererState :=
  writeLoop { st with pendingEsc := [] } [] (st.pendingEsc ++ s)

/-- A sequence of `write` calls, one chunk after another; an exception
aborts the sequence (as it would abort the Python caller). -/
def writeAll (st : RendererState) : List (List Char) → Except PyErr RendererState
  | [] => .ok st
  | c :: cs =>
    match write st c with
    | .error e => .error e
    | .ok st1 => writeAll st1 cs

/-! ## Protocol negotiator (src/core_network.py)

The `NetworkClient` is modelled by the state below.  Byte output is a log
of `Nat` byte values in send order.

Two facts matter for `_on_option`.  First, the callback is registered
with stdlib `telnetlib.Telnet.set_option_negotiation_callback`
(src/core_network.py line 103), and the stdlib invokes it as
`self.option_callback(self.sock, cmd, opt)` (telnetlib.py lines 482 and
489): the first argument is the RAW SOCKET, not the `Telnet` instance.  A
`socket.socket` has no `.sock` attribute, so on a live connection every
branch's first `telnet.sock` access raises `AttributeError`, swallowed by
the blanket `except Exception: pass` (src/core_network.py line 320) —
the negotiator never emits a response and never arms the capability flag.
The policy chain written in the body runs only when the callback is
invoked directly with a Telnet-like object that does carry a `.sock`, as
the repository's unit tests do with their `_DummyTelnet`.  The argument
shapes are modelled by `TelnetCbArg` below.

Second, `threading.Lock` is not reentrant: `with self._send_lock` while
the same thread already holds it blocks forever.  The nested acquisition
in `_on_option → send_naws` is sequential and deterministic, modelled by
a lock-held flag whose re-acquisition while held produces the `dead`
outcome; that code text is only reachable in the direct-invocation
configuration (a `.sock`-bearing argument with `self._tn` live), never
through the stdlib wiring. -/

/-- Telnet command and option codes (src/core_network.py lines 34-53). -/
def IAC : Nat := 255
def DONT : Nat := 254
def DO : Nat := 253
def WONT : Nat := 252
def WILL : Nat := 251
def SB : Nat := 250
def SE : Nat := 240
def ECHO : Nat := 1
def SGA : Nat := 3
def TTYPE : Nat := 24
def NAWS : Nat := 31
def LINEMODE : Nat := 34
def NEW_ENVIRON : Nat := 39
def MSDP : Nat := 69
def MSSP : Nat := 70
def COMPRESS2 : Nat := 86
def MXP : Nat := 91
def GMCP : Nat := 201

/-- The observable state of a `NetworkClient`: whether `self._tn` is set,
whether `self._tn.sock` is set, the stop event, the NAWS capability flag,
and the log of bytes written to the socket. -/
structure NetState where
  tnP : Bool
  sockP : Bool
  stopFlag : Bool
  nawsEnabled : Bool
  sent : List Nat
deriving DecidableEq, Repr

/-- Result of a negotiator operation: normal return, or the deterministic
self-deadlock of re-acquiring the non-reentrant send lock (with the state
at the moment of the hang). -/
inductive NetResult where
  | ok (st : NetState)
  | dead (st : NetState)
deriving DecidableEq, Repr

/-- Embedding of `NetworkClient._get_naws_size` (src/core_network.py lines 219-221):
the fixed default terminal size. -/
def _get_naws_size : Nat × Nat := (120, 40)

/-- The 9-byte NAWS frame built by `send_naws` (src/core_network.py lines
236-243), with the one-byte clamps `max(20, min(255, cols))` and
`max(5, min(255, rows))`. -/
def nawsFrame (cols rows : Int) : List Nat :=
  [IAC, SB, NAWS, 0, (max 20 (min 255 cols)).toNat, 0, (max 5 (min 255 rows)).toNat, IAC, SE]

/-- Embedding of `NetworkClient.send_naws` (src/core_network.py lines
223-248) with an explicit flag for whether the caller already holds the
send lock.  The no-connection early return precedes the lock acquisition;
with the lock already held, `with self._send_lock` deadlocks. -/
def send_naws_core (lockHeld : Bool) (st : NetState) (cols rows : Int) : NetResult :=
  if ¬ (st.tnP ∧ st.sockP) then .ok st
  else if lockHeld then .dead st
  else .ok { st with sent := st.sent ++ nawsFrame cols rows }

/-- The `send_naws` entry point as called by the client's owner (lock not held). -/
def send_naws (st : NetState) (cols rows : Int) : NetResult :=
  send_naws_core false st cols rows

/-- Embedding of `NetworkClient.send_line` (src/core_network.py lines
196-206): no-op without a connection; otherwise UTF-8 encode the line plus
CRLF and write it.  A write failure on a connection whose socket is gone
is swallowed (`except Exception: pass`), so no bytes are recorded then.
`telnetlib.Telnet.write` doubles IAC bytes, but UTF-8 output never
contains the byte 255, so the doubling is vacuous here. -/
def send_line (st : NetState) (line : String) : NetState :=
  if ¬ st.tnP then st
  else if ¬ st.sockP then st
  else { st with sent := st.sent ++ ((line ++ "\r\n").toUTF8.toList.map (fun b => b.toNat)) }

/-- Embedding of `NetworkClient.close` (src/core_network.py lines
208-217): set the stop event and, when a connection exists, close and
clear it. -/
def close (st : NetState) : NetState :=
  if st.tnP then { st with stopFlag := true, tnP := false, sockP := false }
  else { st with stopFlag := true }

/-- The possible shapes of the `telnet` argument `_on_option` receives.
Stdlib `telnetlib` always passes the raw socket (`rawSocket`); the
repository's unit tests invoke the callback directly with a Telnet-like
object carrying a `.sock` attribute (`telnetObj`, with `sockP` recording
whether that `.sock` is set). -/
inductive TelnetCbArg where
  | rawSocket
  | telnetObj (sockP : Bool)
deriving DecidableEq, Repr

/-- Embedding of `NetworkClient._on_option` (src/core_network.py lines
253-322), the negotiation callback.  With the stdlib wiring the argument
is the raw socket (`rawSocket`): the first `telnet.sock` attribute access
of whichever branch runs raises `AttributeError` before any byte is sent
or any flag is set, and the blanket `except` swallows it — the state is
returned unchanged for every `(cmd, opt)`.  With a Telnet-like argument
whose `.sock` is `None`, `None.sendall` raises the same way.  Only with a
`.sock`-bearing argument does the policy chain run; it does so under
`with self._send_lock`, so the nested `send_naws` call on `DO NAWS`
re-acquires the held non-reentrant lock when `self._tn` is live. -/
def _on_option (st : NetState) (telnet : TelnetCbArg) (cmd opt : Nat) : NetResult :=
  match telnet with
  | .rawSocket => .ok st
  | .telnetObj sockP =>
  if ¬ sockP then .ok st
  else if cmd = DO then
    if opt = TTYPE ∨ opt = NAWS ∨ opt = NEW_ENVIRON ∨ opt = MSSP ∨ opt = MSDP ∨ opt = GMCP then
      let st1 := { st with sent := st.sent ++ [IAC, WILL, opt] }
      if opt = NAWS then
        let st2 := { st1 with nawsEnabled := true }
        send_naws_core true st2 (_get_naws_size.1 : Int) (_get_naws_size.2 : Int)
      else if opt = TTYPE then
        .ok { st1 with sent := st1.sent ++ [IAC, SB, TTYPE, 0, 65, 78, 83, 73, IAC, SE] }
      else .ok st1
    else if opt = ECHO ∨ opt = SGA then
      if opt = SGA then .ok { st with sent := st.sent ++ [IAC, WILL, opt] }
      else .ok { st with sent := st.sent ++ [IAC, WONT, opt] }
    else .ok { st with sent := st.sent ++ [IAC, WONT, opt] }
  else if cmd = WILL then
    if opt = ECHO ∨ opt = SGA ∨ opt = MSSP ∨ opt = MSDP ∨ opt = GMCP then
      .ok { st with sent := st.sent ++ [IAC, DO, opt] }
    else if opt = COMPRESS2 then
      .ok { st with sent := st.sent ++ [IAC, DONT, opt] }
    else if opt = MXP ∨ opt = LINEMODE then
      .ok { st with sent := st.sent ++ [IAC, DONT, opt] }
    else .ok { st with sent := st.sent ++ [IAC, DONT, opt] }
  else if cmd = DONT then .ok { st with sent := st.sent ++ [IAC, WONT, opt] }
  else if cmd = WONT then .ok { st with sent := st.sent ++ [IAC, DONT, opt] }
  else .ok st

/-- Embedding of `NetworkClient._strip_iac`'s inner sub-negotiation skip
loop (src/core_network.py lines 349-354): `while i < n - 1` scans while at
least two bytes remain, consuming past `IAC SE` when found; on exhaustion
it leaves the remaining (zero- or one-byte) suffix for the outer loop. -/
def skipSub : List Nat → List Nat
  | a :: b :: rest => if a = IAC ∧ b = SE then rest else skipSub (b :: rest)
  | l => l

/-- The skip loop never lengthens the buffer (for the termination of the
outer stripping loop). -/
theorem skipSub_length_le (l : List Nat) : (skipSub l).length ≤ l.length := by
  induction l with
  | nil => simp [skipSub]
  | cons a rest ih =>
    cases rest with
    | nil => simp [skipSub]
    | cons b rest2 =>
      simp only [skipSub]
      split
      · simp only [List.length]
        omega
      · exact Nat.le_trans ih (by simp)

/-- Embedding of `NetworkClient._strip_iac` (src/core_network.py lines
327-361): two-byte negotiation commands drop their option byte,
sub-negotiations are skipped by `skipSub`, any other command byte is
dropped, and every non-IAC byte is payload. -/
def _strip_iac : List Nat → List Nat
  | [] => []
  | b :: rest =>
    if b = IAC then
      match rest with
      | [] => []
      | cmd :: rest2 =>
        if cmd = DO ∨ cmd = DONT ∨ cmd = WILL ∨ cmd = WONT then _strip_iac (rest2.drop 1)
        else if cmd = SB then _strip_iac (skipSub rest2)
        else _strip_iac rest2
    else b :: _strip_iac rest
termination_by l => l.length
decreasing_by
  · simp only [List.length, List.length_drop]
    omega
  · have h := skipSub_length_le rest2
    simp only [List.length]
    omega
  · simp only [List.length]
    omega
  · simp only [List.length]
    omega

/-! ## Step equations for the scanning loop

One rewriting equation per branch of `writeLoop`'s `while` loop; together
they let both the concrete evaluations and the chunk-invariance induction
proceed one consumed character at a time. -/

/-- End of input: flush the pending literal run. -/
theorem writeLoop_nil (st : RendererState) (buf : List Char) :
    writeLoop st buf [] = .ok (flushBuf st buf) := by
  simp [writeLoop]

/-- An `ESC` as the last character is deferred to the next call. -/
theorem writeLoop_esc_last (st : RendererState) (buf : List Char) :
    writeLoop st buf ['\x1b'] = .ok (flushBuf { st with pendingEsc := ['\x1b'] } buf) := by
  simp [writeLoop]

/-- A carriage return flushes the run and raises the carriage flag. -/
theorem writeLoop_cr (st : RendererState) (buf l : List Char) :
    writeLoop st buf ('\r' :: l) = writeLoop { flushBuf st buf with carriage := true } [] l := by
  conv_lhs => rw [writeLoop.eq_def]
  simp +decide

/-- An ordinary character extends the literal run. -/
theorem writeLoop_other (st : RendererState) (buf : List Char) (c : Char) (l : List Char)
    (h1 : c ≠ '\x1b') (h2 : c ≠ '\r') :
    writeLoop st buf (c :: l) = writeLoop st (buf ++ [c]) l := by
  conv_lhs => rw [writeLoop.eq_def]
  simp [h1, h2]

/-- An `ESC` not followed by `[` is treated as a literal character. -/
theorem writeLoop_esc_lit (st : RendererState) (buf : List Char) (c : Char) (l : List Char)
    (h : c ≠ '[') :
    writeLoop st buf ('\x1b' :: c :: l) = writeLoop st (buf ++ ['\x1b']) (c :: l) := by
  conv_lhs => rw [writeLoop.eq_def]
  simp [h]

/-- An `ESC [` flushes the run and parses a CSI: an incomplete parse buffers
the whole tail from the `ESC`, an `m` mode applies SGR, any other mode is
consumed without effect, and an `int()` failure raises. -/
theorem writeLoop_csi (st : RendererState) (buf l : List Char) :
    writeLoop st buf ('\x1b' :: '[' :: l) =
      match parseCsi [] [] l with
      | .err => .error .valueError
      | .more => .ok { flushBuf st buf with pendingEsc := '\x1b' :: '[' :: l }
      | .done ps mode rest3 =>
        writeLoop (if mode = 'm' then
            { flushBuf st buf with style := _apply_sgr (flushBuf st buf).style ps }
          else flushBuf st buf) [] rest3 := by
  conv_lhs => rw [writeLoop.eq_def]
  simp only [reduceIte]
  rcases hp : parseCsi [] [] l with _ | ⟨ps, mode, rest3⟩ | _ <;> simp [hp, _apply_sgr]

/-! ## Chunk-composition lemmas -/

/-- Flushing an empty run is the identity. -/
theorem flushBuf_nil (st : RendererState) : flushBuf st [] = st := by
  simp [flushBuf]

/-- Inserting in two steps equals inserting the concatenation: the
carriage-return erase fires at most once, on the first insertion. -/
theorem _insert_append (st : RendererState) (x y : List Char) :
    _insert (_insert st x) y = _insert st (x ++ y) := by
  by_cases hc : st.carriage <;> simp [_insert, hc]

/-- Flushing in two steps equals flushing the concatenation. -/
theorem flushBuf_append (st : RendererState) (x y : List Char) :
    flushBuf (flushBuf st x) y = flushBuf st (x ++ y) := by
  rcases x with _ | ⟨a, x⟩
  · simp [flushBuf]
  · rcases y with _ | ⟨b, y⟩
    · simp [flushBuf]
    · simp [flushBuf, _insert_append]

/-- Neither the erase nor the insertion touches the pending-escape buffer. -/
theorem flushBuf_pendingEsc (st : RendererState) (buf : List Char) :
    (flushBuf st buf).pendingEsc = st.pendingEsc := by
  by_cases hb : buf.isEmpty <;> by_cases hc : st.carriage <;> simp [flushBuf, _insert, hb, hc]

/-- Setting the pending buffer commutes with flushing. -/
theorem flushBuf_set_pending (st : RendererState) (buf p : List Char) :
    flushBuf { st with pendingEsc := p } buf = { flushBuf st buf with pendingEsc := p } := by
  by_cases hb : buf.isEmpty <;> by_cases hc : st.carriage <;> simp [flushBuf, _insert, hb, hc]

/-- Clearing an already-clear pending buffer changes nothing. -/
theorem set_pending_self (st : RendererState) (h : st.pendingEsc = []) :
    { st with pendingEsc := ([] : List Char) } = st := by
  cases st
  simp_all

/-- Scanning from an accumulated literal run equals scanning from the
flushed state with an empty run: the run's flush point does not influence
anything downstream. -/
theorem writeLoop_flush (l : List Char) : ∀ st buf,
    writeLoop st buf l = writeLoop (flushBuf st buf) [] l := by
  induction l with
  | nil =>
    intro st buf
    rw [writeLoop_nil, writeLoop_nil, flushBuf_nil]
  | cons c l2 ih =>
    intro st buf
    by_cases hr : c = '\r'
    · subst hr
      rw [writeLoop_cr, writeLoop_cr, flushBuf_nil]
    by_cases he : c = '\x1b'
    · subst he
      rcases l2 with _ | ⟨c2, l3⟩
      · rw [writeLoop_esc_last, writeLoop_esc_last]
        simp [flushBuf_set_pending, flushBuf_nil]
      by_cases hb : c2 = '['
      · subst hb
        rw [writeLoop_csi, writeLoop_csi]
        simp [flushBuf_nil]
      · rw [writeLoop_esc_lit _ _ _ _ hb, writeLoop_esc_lit _ _ _ _ hb, ih]
        conv_rhs => rw [ih]
        rw [flushBuf_append]
        simp
    · rw [writeLoop_other _ _ _ _ he hr, writeLoop_other _ _ _ _ he hr, ih]
      conv_rhs => rw [ih]
      rw [flushBuf_append]
      simp

/-- A CSI parse that completes (or raises) on a prefix behaves identically
on any extension of that prefix: the consumed characters determine the
outcome, and the leftover input is extended verbatim. -/
theorem parseCsi_append (b : List Char) (l : List Char) : ∀ ps num,
    (∀ ps2 m r, parseCsi ps num l = .done ps2 m r →
      parseCsi ps num (l ++ b) = .done ps2 m (r ++ b))
    ∧ (parseCsi ps num l = .err → parseCsi ps num (l ++ b) = .err) := by
  induction l with
  | nil =>
    intro ps num
    constructor
    · intro ps2 m r h
      simp [parseCsi] at h
    · intro h
      simp [parseCsi] at h
  | cons c rest ih =>
    intro ps num
    constructor
    · intro ps2 m r h
      simp only [parseCsi] at h
      rw [List.cons_append]
      simp only [parseCsi]
      by_cases hd : pyIsDigit c = true
      · rw [if_pos hd] at h ⊢
        exact (ih _ _).1 _ _ _ h
      · rw [if_neg hd] at h ⊢
        by_cases hs : c = ';'
        · rw [if_pos hs] at h ⊢
          revert h
          rcases hn : numToParam num with e | p
          · intro h
            exact absurd h (by simp)
          · intro h
            exact (ih _ _).1 _ _ _ h
        · rw [if_neg hs] at h ⊢
          by_cases hne : (num.isEmpty && ps.isEmpty) = true
          · rw [if_pos hne] at h ⊢
            obtain ⟨h1, h2, h3⟩ := CsiOut.done.inj h
            subst h1; subst h2; subst h3
            rfl
          · rw [if_neg hne] at h ⊢
            revert h
            rcases hn : numToParam num with e | p
            · intro h
              exact absurd h (by simp)
            · intro h
              obtain ⟨h1, h2, h3⟩ := CsiOut.done.inj h
              subst h1; subst h2; subst h3
              rfl
    · intro h
      simp only [parseCsi] at h
      rw [List.cons_append]
      simp only [parseCsi]
      by_cases hd : pyIsDigit c = true
      · rw [if_pos hd] at h ⊢
        exact (ih _ _).2 h
      · rw [if_neg hd] at h ⊢
        by_cases hs : c = ';'
        · rw [if_pos hs] at h ⊢
          revert h
          rcases hn : numToParam num with e | p
          · intro h
            rfl
          · intro h
            exact (ih _ _).2 h
        · rw [if_neg hs] at h ⊢
          by_cases hne : (num.isEmpty && ps.isEmpty) = true
          · rw [if_pos hne] at h ⊢
            exact absurd h (by simp)
          · rw [if_neg hne] at h ⊢
            revert h
            rcases hn : numToParam num with e | p
            · intro h
              rfl
            · intro h
              exact absurd h (by simp)

/-- The continuation of a split `write` call: propagate an error, or
resume from the reached state — clear the pending buffer and scan it
prepended to the follow-up input, exactly what the next `write` does. -/
def contWrite (b : List Char) : Except PyErr RendererState → Except PyErr RendererState
  | .error e => .error e
  | .ok st1 => writeLoop { st1 with pendingEsc := [] } [] (st1.pendingEsc ++ b)

/-- Unfold `contWrite` on a successful result. -/
theorem contWrite_ok (b : List Char) (st1 : RendererState) :
    contWrite b (.ok st1) =
      writeLoop { st1 with pendingEsc := [] } [] (st1.pendingEsc ++ b) := rfl

/-- Unfold `contWrite` on an error. -/
theorem contWrite_error (b : List Char) (e : PyErr) :
    contWrite b (.error e) = .error e := rfl

/-- Projection of a pending-buffer update. -/
theorem pending_proj (st : RendererState) (p : List Char) :
    ({ st with pendingEsc := p } : RendererState).pendingEsc = p := rfl

/-- Overwriting the pending buffer twice keeps the last value. -/
theorem set_pending_twice (st : RendererState) (p : List Char) :
    ({ { st with pendingEsc := p } with pendingEsc := ([] : List Char) } : RendererState)
      = { st with pendingEsc := [] } := rfl

/-- Splitting the scanned input anywhere: scanning `a ++ b` equals
scanning `a` and then continuing with `b` the way the next `write` call
would, provided the starting pending buffer is empty (as it is at every
`write` entry after the prepend-and-clear step). -/
theorem writeLoop_append_aux (n : Nat) : ∀ a : List Char, a.length ≤ n →
    ∀ st buf (b : List Char), st.pendingEsc = [] →
    writeLoop st buf (a ++ b) = contWrite b (writeLoop st buf a) := by
  induction n with
  | zero =>
    intro a ha st buf b hp
    have haz : a = [] := List.eq_nil_of_length_eq_zero (Nat.le_zero.mp ha)
    subst haz
    rw [List.nil_append, writeLoop_nil, contWrite_ok, flushBuf_pendingEsc, hp,
      List.nil_append, set_pending_self _ (by rw [flushBuf_pendingEsc, hp])]
    exact writeLoop_flush b st buf
  | succ n ihn =>
    intro a ha st buf b hp
    rcases a with _ | ⟨c, a2⟩
    · rw [List.nil_append, writeLoop_nil, contWrite_ok, flushBuf_pendingEsc, hp,
        List.nil_append, set_pending_self _ (by rw [flushBuf_pendingEsc, hp])]
      exact writeLoop_flush b st buf
    by_cases hr : c = '\r'
    · subst hr
      rw [List.cons_append, writeLoop_cr, writeLoop_cr]
      exact ihn a2 (by simp at ha; omega) _ [] b (by simp [flushBuf_pendingEsc, hp])
    by_cases he : c = '\x1b'
    · subst he
      rcases a2 with _ | ⟨c2, a3⟩
      · simp only [List.cons_append, List.nil_append]
        rw [writeLoop_esc_last, flushBuf_set_pending, contWrite_ok, set_pending_twice,
          pending_proj, set_pending_self _ (by rw [flushBuf_pendingEsc, hp]),
          List.cons_append, List.nil_append]
        exact writeLoop_flush ('\x1b' :: b) st buf
      by_cases hb : c2 = '['
      · subst hb
        simp only [List.cons_append]
        rw [writeLoop_csi, writeLoop_csi]
        rcases hpc : parseCsi [] [] a3 with _ | ⟨ps, mode, rest3⟩ | _
        · rw [contWrite_ok, set_pending_twice, pending_proj,
            set_pending_self _ (by rw [flushBuf_pendingEsc, hp]),
            List.cons_append, List.cons_append, writeLoop_csi, flushBuf_nil]
        · rw [(parseCsi_append b a3 [] []).1 _ _ _ hpc]
          have hr3 : rest3.length ≤ n := by
            have h1 := parseCsi_done_length a3 [] [] ps mode rest3 hpc
            simp only [List.length] at ha
            omega
          exact ihn rest3 hr3 _ [] b (by split <;> simp [flushBuf_pendingEsc, hp])
        · rw [(parseCsi_append b a3 [] []).2 hpc, contWrite_error]
      · simp only [List.cons_append]
        rw [writeLoop_esc_lit _ _ _ _ hb, writeLoop_esc_lit _ _ _ _ hb, ← List.cons_append]
        exact ihn (c2 :: a3) (by simp at ha ⊢; omega) _ _ b hp
    · rw [List.cons_append, writeLoop_other _ _ _ _ he hr, writeLoop_other _ _ _ _ he hr]
      exact ihn a2 (by simp at ha; omega) _ _ b hp

/-- Concatenating the input of two `write` calls equals making the calls in
sequence: `write st (a ++ b)` is `write st a` followed (on success) by
`write` of `b` from the reached state, errors propagating. -/
theorem write_append (st : RendererState) (a b : List Char) :
    write st (a ++ b) = contWrite b (write st a) := by
  show writeLoop { st with pendingEsc := [] } [] (st.pendingEsc ++ (a ++ b)) = _
  rw [← List.append_assoc]
  exact writeLoop_append_aux (st.pendingEsc ++ a).length _ le_rfl _ _ b rfl

/-- A state produced by a successful `write` absorbs an empty follow-up
call: `write st1 ""` returns `st1` unchanged (the buffered partial escape,
if any, is re-buffered verbatim). -/
theorem write_empty_of_ok (st st1 : RendererState) (s : List Char)
    (h : write st s = .ok st1) : write st1 [] = .ok st1 := by
  have h2 := write_append st s []
  rw [List.append_nil, h] at h2
  exact h2.symm

/-- Feeding chunks one at a time equals feeding their concatenation, from
any state that absorbs an empty call. -/
theorem writeAll_join (cs : List (List Char)) : ∀ st : RendererState,
    write st [] = .ok st → writeAll st cs = write st cs.flatten := by
  induction cs with
  | nil =>
    intro st h
    simp only [writeAll, List.flatten_nil]
    exact h.symm
  | cons c cs ih =>
    intro st h
    simp only [writeAll, List.flatten_cons]
    rw [write_append]
    rcases hw : write st c with e | st1
    · rw [contWrite_error]
    · have hc : contWrite cs.flatten (Except.ok st1) = write st1 cs.flatten := rfl
      rw [hc]
      exact ih st1 (write_empty_of_ok st st1 c hw)

/-! ## Theorems for the claims -/

/-- C2 (supporting evaluation).  Negotiation policy: what the code
actually emits.  Through the stdlib wiring the callback receives the raw
socket, so `_on_option` returns the state unchanged and sends nothing for
every inbound `(cmd, opt)` — no policy-table response is ever emitted,
`DO NAWS` included: no `WILL NAWS`, no capability flag, no window-size
frame (first two conjuncts).  The policy chain written in the body is
reachable only by direct invocation with a `.sock`-bearing Telnet-like
object; in the repository's own unit-test configuration (`_DummyTelnet`
with a socket, `self._tn` still `None`) `DO NAWS` does answer
`IAC WILL NAWS` and arms the flag, but the window-size frame is still not
transmitted because `send_naws` early-returns without a connection
(third conjunct). -/
theorem negotiation_no_response :
    (∀ st : NetState, ∀ cmd opt : Nat, _on_option st .rawSocket cmd opt = .ok st)
    ∧ _on_option ⟨true, true, false, false, []⟩ .rawSocket DO NAWS =
        .ok ⟨true, true, false, false, []⟩
    ∧ (∀ st : NetState, st.tnP = false →
        _on_option st (.telnetObj true) DO NAWS =
          .ok { st with nawsEnabled := true, sent := st.sent ++ [IAC, WILL, NAWS] }) := by
  refine ⟨fun st cmd opt => rfl, rfl, ?_⟩
  intro st h
  simp [_on_option, send_naws_core, _get_naws_size, h, DO, WILL, NAWS, TTYPE, IAC]

/-- C3.  Window-size clamping and frame format: with a live connection
`send_naws cols rows` appends exactly the 9-byte frame
`IAC SB NAWS 0 (max 20 (min 255 cols)) 0 (max 5 (min 255 rows)) IAC SE`
(whether or not the capability flag is armed, so in particular when it
is); concretely, `send_naws 10 1000` transmits cols=20 rows=255 and
`send_naws 300 3` transmits cols=255 rows=5. -/
theorem send_naws_clamping :
    (∀ st : NetState, st.tnP = true → st.sockP = true → ∀ cols rows : Int,
      send_naws st cols rows = .ok { st with sent := st.sent ++
        [IAC, SB, NAWS, 0, (max 20 (min 255 cols)).toNat, 0,
         (max 5 (min 255 rows)).toNat, IAC, SE] })
    ∧ (∀ cols rows : Int, (nawsFrame cols rows).length = 9)
    ∧ send_naws ⟨true, true, false, true, []⟩ 10 1000 =
        .ok ⟨true, true, false, true, [255, 250, 31, 0, 20, 0, 255, 255, 240]⟩
    ∧ send_naws ⟨true, true, false, true, []⟩ 300 3 =
        .ok ⟨true, true, false, true, [255, 250, 31, 0, 255, 0, 5, 255, 240]⟩ := by
  refine ⟨?_, ?_, by decide, by decide⟩
  · intro st h1 h2 cols rows
    simp [send_naws, send_naws_core, nawsFrame, h1, h2]
  · intro cols rows
    simp [nawsFrame]

/-- C6 (supporting evaluation).  IAC stripping: on the claim's example
`IAC DO 1 ++ "ABC" ++ IAC SB 24 1 IAC SE ++ "XYZ"` the stripper returns
exactly `"ABCXYZ"`; but on the unterminated sub-negotiation
`IAC SB 24 1 2` the skip loop (`while i < n - 1`) stops one byte short of
the end and the final byte of the sub-negotiation leaks into the payload:
the result is `[2]`, not the empty payload the claim requires. -/
theorem strip_iac_cases :
    _strip_iac ([255, 253, 1] ++ [65, 66, 67] ++ [255, 250, 24, 1, 255, 240] ++ [88, 89, 90])
        = [65, 66, 67, 88, 89, 90]
    ∧ _strip_iac [255, 250, 24, 1, 2] = [2]
    ∧ _strip_iac [255, 250, 24, 1, 2] ≠ [] := by
  have h2 : _strip_iac [255, 250, 24, 1, 2] = [2] := by
    simp [_strip_iac, skipSub, IAC, DO, DONT, WILL, WONT, SB, SE]
  refine ⟨?_, h2, by simp [h2]⟩
  simp [_strip_iac, skipSub, IAC, DO, DONT, WILL, WONT, SB, SE]

/-- C10.  `send_line` and `send_naws` with no connection object
(`self._tn is None`: before `connect`, or after `close` cleared it) are
total no-ops: no exception (modelled by totality and the `ok` outcome), no
bytes transmitted, and the whole negotiator state — stop flag, capability
flag, connection field included — returned unchanged.  `close` always
clears the connection field, so sends after `close` are no-ops on the
closed state. -/
theorem disconnected_sends_noop :
    (∀ st : NetState, st.tnP = false → ∀ line, send_line st line = st)
    ∧ (∀ st : NetState, st.tnP = false → ∀ cols rows : Int, send_naws st cols rows = .ok st)
    ∧ (∀ st : NetState, (close st).tnP = false ∧ (close st).stopFlag = true)
    ∧ (∀ st : NetState, ∀ line, ∀ cols rows : Int,
        send_line (close st) line = close st ∧ send_naws (close st) cols rows = .ok (close st))
    ∧ send_line ⟨false, false, false, false, []⟩ "look" = ⟨false, false, false, false, []⟩
    ∧ send_naws ⟨false, false, false, false, []⟩ 80 24 = .ok ⟨false, false, false, false, []⟩ := by
  have hline : ∀ st : NetState, st.tnP = false → ∀ line, send_line st line = st := by
    intro st h line
    simp [send_line, h]
  have hnaws : ∀ st : NetState, st.tnP = false → ∀ cols rows : Int,
      send_naws st cols rows = .ok st := by
    intro st h cols rows
    simp [send_naws, send_naws_core, h]
  have hclose : ∀ st : NetState, (close st).tnP = false ∧ (close st).stopFlag = true := by
    intro st
    by_cases h : st.tnP = true <;> simp [close, h]
  refine ⟨hline, hnaws, hclose, ?_, by decide, by decide⟩
  intro st line cols rows
  exact ⟨hline _ (hclose st).1 line, hnaws _ (hclose st).1 cols rows⟩

/-- C1.  Chunk-invariance of the renderer: for every text `T` and every
partitioning of `T` into consecutive chunks, feeding the chunks to `write`
one at a time from a fresh `RendererState` produces exactly the same
outcome — the same full final state (hence the same concatenated emitted
text and the same final `Style`), or the same error — as one `write` of
the whole text.  Splits at every position are covered, a split inside an
escape sequence such as `ESC[31m` included, since the chunk list is
universally quantified.  The second conjunct reads off the claim's
observables. -/
theorem chunk_invariance :
    (∀ chunks : List (List Char), writeAll initState chunks = write initState chunks.flatten)
    ∧ (∀ chunks : List (List Char), ∀ st1 st2 : RendererState,
        writeAll initState chunks = .ok st1 → write initState chunks.flatten = .ok st2 →
        st1.emitted = st2.emitted ∧ st1.style = st2.style) := by
  have hinit : write initState [] = .ok initState := by
    show writeLoop initState [] [] = .ok initState
    rw [writeLoop_nil, flushBuf_nil]
  constructor
  · intro chunks
    exact writeAll_join chunks initState hinit
  · intro chunks st1 st2 h1 h2
    rw [writeAll_join chunks initState hinit, h2] at h1
    obtain rfl := Except.ok.inj h1
    exact ⟨rfl, rfl⟩

set_option maxRecDepth 8000 in
/-- C4.  Color-table exactness of the resolution function: the cube origin
`Indexed256(16)` resolves like `Named(0)` (black), the cube's brightest
corner `Indexed256(231)` is `#ffffff`, the top grayscale step
`Indexed256(255)` is `8 + 23*10 = 238` on all channels (`#eeeeee`),
`TrueColor(10,20,30)` passes through exactly, every cube index
`16 ≤ n ≤ 231` resolves each component to `0` when the component is `0`
and `55 + component*40` otherwise, and every grayscale index
`232 ≤ n ≤ 255` resolves to `8 + (n-232)*10` on all three channels. -/
theorem color_table_exact :
    color_from_ansi (.xterm 16) false = color_from_ansi (.named 0) false
    ∧ color_from_ansi (.named 0) false = "#000000"
    ∧ color_from_ansi (.xterm 231) false = "#ffffff"
    ∧ color_from_ansi (.xterm 255) false = "#eeeeee"
    ∧ color_from_ansi (.rgb 10 20 30) false = "#0a141e"
    ∧ (∀ n : Nat, n < 232 → 16 ≤ n →
        xterm_color (n : Int) =
          "#" ++ hex2 (if (n-16)/36 = 0 then 0 else 55 + ((n-16)/36) * 40)
              ++ hex2 (if (n-16)/6 % 6 = 0 then 0 else 55 + ((n-16)/6 % 6) * 40)
              ++ hex2 (if (n-16) % 6 = 0 then 0 else 55 + ((n-16) % 6) * 40))
    ∧ (∀ n : Nat, n < 256 → 232 ≤ n →
        xterm_color (n : Int) =
          "#" ++ hex2 (8+(n-232)*10) ++ hex2 (8+(n-232)*10) ++ hex2 (8+(n-232)*10)) := by
  exact ⟨by decide, by decide, by decide, by decide, by decide, by decide, by decide⟩

/-- C5 (supporting evaluation).  The `bold` parameter of the resolution
function is dead: resolving `Named(1)` with `bold` set yields the normal
variant `#aa0000`, not the bright `Named(9)` variant `#ff5555` the claim
requires; in fact resolution is independent of `bold` for every color
kind.  The full `_get_colors` path shows the same: a bold red foreground
resolves to `#aa0000`. -/
theorem bold_resolution_ignored :
    color_from_ansi (.named 1) true = "#aa0000"
    ∧ color_from_ansi (.named 9) false = "#ff5555"
    ∧ color_from_ansi (.named 1) true ≠ color_from_ansi (.named 9) false
    ∧ (∀ code : ColorCode, ∀ b1 b2 : Bool, color_from_ansi code b1 = color_from_ansi code b2)
    ∧ _get_colors (some (.named 1)) none true false = ("#aa0000", "#111111") := by
  refine ⟨by decide, by decide, by decide, ?_, by decide⟩
  intro code b1 b2
  cases code <;> rfl

/-- C9 (supporting evaluation).  `write` is not total: on
`ESC [ U+00B2 m` the superscript-two character passes the `isdigit` guard,
is accumulated into the parameter run, and the `int()` conversion then
raises `ValueError` out of `write`.  The two recovery paths the claim
describes do hold: an `ESC` not followed by `[` is emitted as literal
text, and an input ending inside a CSI is retained in the pending-escape
buffer without error. -/
theorem write_totality_failure :
    write initState ['\x1b', '[', '²', 'm'] = .error .valueError
    ∧ write initState ['\x1b', 'A'] =
        .ok { initState with doc := ['\x1b', 'A'], emitted := ['\x1b', 'A'] }
    ∧ write initState ['\x1b', '[', '3'] =
        .ok { initState with pendingEsc := ['\x1b', '[', '3'] } := by
  refine ⟨?_, ?_, ?_⟩ <;>
    simp +decide [write, initState, writeLoop_nil, writeLoop_esc_last, writeLoop_cr,
      writeLoop_other, writeLoop_esc_lit, writeLoop_csi, parseCsi, numToParam, pyInt,
      pyIsDigit, digitsVal, Except.map, flushBuf, _insert, styleReset]

/-- Scanning plain text (no escape, no carriage return) appends it as one
flushed run. -/
theorem writeLoop_text (t : List Char) : ∀ st buf, (∀ c ∈ t, c ≠ '\x1b' ∧ c ≠ '\r') →
    writeLoop st buf t = .ok (flushBuf st (buf ++ t)) := by
  induction t with
  | nil =>
    intro st buf h
    rw [writeLoop_nil, List.append_nil]
  | cons c t2 ih =>
    intro st buf h
    rw [writeLoop_other _ _ _ _ (h c (by simp)).1 (h c (by simp)).2,
      ih _ _ (fun x hx => h x (by simp [hx])), List.append_assoc]
    rfl

/-- C7.  Carriage-return semantics.  A `\r` raises the erase-line flag and
changes nothing else — not the style, not the document (first conjunct); a
second `\r` with nothing in between does not erase either (second
conjunct: no double erase).  The erase happens immediately before the NEXT
emitted run: writing plain text from a flagged state first deletes the
content of the last display line, then appends (third conjunct).
Concretely, writing `"Line1\nCar\rXYZ"` to a fresh renderer leaves a
document whose last line is exactly `"XYZ"`, with `Car` having been
emitted (it appears in the emitted-run log) and then erased, and with the
style untouched (fourth conjunct). -/
theorem carriage_return_semantics :
    (∀ st : RendererState, st.pendingEsc = [] →
      write st ['\r'] = .ok { st with carriage := true })
    ∧ (∀ st : RendererState, st.pendingEsc = [] →
      write st ['\r', '\r'] = .ok { st with carriage := true })
    ∧ (∀ st : RendererState, ∀ t : List Char, st.pendingEsc = [] → st.carriage = true →
      t ≠ [] → (∀ c ∈ t, c ≠ '\x1b' ∧ c ≠ '\r') →
      write st t = .ok { st with
        carriage := false
        doc := dropLastLine st.doc ++ t
        emitted := st.emitted ++ t })
    ∧ (match write initState ("Line1\nCar\rXYZ".toList) with
       | .ok st1 => lastLine st1.doc = "XYZ".toList ∧ st1.emitted = "Line1\nCarXYZ".toList
           ∧ st1.style = styleReset
       | .error _ => False) := by
  refine ⟨?_, ?_, ?_, ?_⟩
  · rintro ⟨style, carriage, pendingEsc, doc, emitted⟩ hp
    simp only at hp
    subst hp
    show writeLoop ⟨style, carriage, [], doc, emitted⟩ [] ([] ++ ['\r']) = _
    rw [List.nil_append, writeLoop_cr, flushBuf_nil, writeLoop_nil, flushBuf_nil]
  · rintro ⟨style, carriage, pendingEsc, doc, emitted⟩ hp
    simp only at hp
    subst hp
    show writeLoop ⟨style, carriage, [], doc, emitted⟩ [] ([] ++ ['\r', '\r']) = _
    rw [List.nil_append, writeLoop_cr, flushBuf_nil, writeLoop_cr, flushBuf_nil,
      writeLoop_nil, flushBuf_nil]
  · rintro ⟨style, carriage, pendingEsc, doc, emitted⟩ t hp hc ht hall
    simp only at hp hc
    subst hp
    subst hc
    show writeLoop ⟨style, true, [], doc, emitted⟩ [] ([] ++ t) = _
    rw [List.nil_append, writeLoop_text t _ [] hall, List.nil_append]
    rcases t with _ | ⟨c, t2⟩
    · exact absurd rfl ht
    · simp [flushBuf, _insert]
  · simp +decide [write, initState, writeLoop_nil, writeLoop_esc_last, writeLoop_cr,
      writeLoop_other, writeLoop_esc_lit, writeLoop_csi, parseCsi, numToParam, pyInt,
      pyIsDigit, digitsVal, Except.map, flushBuf, _insert, styleReset, dropLastLine, lastLine,
      String.toList]

/-- On a parameter tail the extended-color lookahead does not recognise,
`sgrExt` consumes nothing and changes nothing. -/
theorem sgrExt_short (st : Style) (p : Nat) (rest : List (Option Nat))
    (hshort : extShapeShort rest = true) : sgrExt st p rest = (st, 0) := by
  unfold sgrExt
  split
  · simp [extShapeShort] at hshort
  · simp [extShapeShort] at hshort
  · rfl

/-- Step equation: `38;5;v` sets the indexed foreground and consumes
exactly the three parameters used. -/
theorem sgrLoop_ext5_fg (st : Style) (v : Nat) (rest : List (Option Nat)) :
    sgrLoop st (some 38 :: some 5 :: some v :: rest)
      = sgrLoop { st with fg := some (.xterm (v : Int)) } rest := by
  conv_lhs => rw [sgrLoop.eq_def]
  norm_num [sgrExt]

/-- Step equation: `48;5;v` sets the indexed background. -/
theorem sgrLoop_ext5_bg (st : Style) (v : Nat) (rest : List (Option Nat)) :
    sgrLoop st (some 48 :: some 5 :: some v :: rest)
      = sgrLoop { st with bg := some (.xterm (v : Int)) } rest := by
  conv_lhs => rw [sgrLoop.eq_def]
  norm_num [sgrExt]

/-- Step equation: `38;2;r;g;b` sets the true-color foreground and
consumes exactly the five parameters used. -/
theorem sgrLoop_ext2_fg (st : Style) (r g b : Nat) (rest : List (Option Nat)) :
    sgrLoop st (some 38 :: some 2 :: some r :: some g :: some b :: rest)
      = sgrLoop { st with fg := some (.rgb (r : Int) (g : Int) (b : Int)) } rest := by
  conv_lhs => rw [sgrLoop.eq_def]
  norm_num [sgrExt]

/-- Step equation: `48;2;r;g;b` sets the true-color background. -/
theorem sgrLoop_ext2_bg (st : Style) (r g b : Nat) (rest : List (Option Nat)) :
    sgrLoop st (some 48 :: some 2 :: some r :: some g :: some b :: rest)
      = sgrLoop { st with bg := some (.rgb (r : Int) (g : Int) (b : Int)) } rest := by
  conv_lhs => rw [sgrLoop.eq_def]
  norm_num [sgrExt]

/-- Step equation: a `38`/`48` whose following parameters form neither
recognised shape consumes only itself; the following parameters are then
interpreted as ordinary SGR parameters. -/
theorem sgrLoop_short (st : Style) (p : Nat) (rest : List (Option Nat))
    (hp : p = 38 ∨ p = 48) (hshort : extShapeShort rest = true) :
    sgrLoop st (some p :: rest) = sgrLoop st rest := by
  conv_lhs => rw [sgrLoop.eq_def]
  rcases hp with h | h <;> subst h <;> norm_num <;> rw [sgrExt_short st _ rest hshort] <;> rfl

/-- Evaluation of the malformed sequence `SGR 38;2;31`: the `2;r;g;b`
shape is one parameter short, so the `38` alone is skipped and the
leftover `31` is then interpreted as the ordinary SGR parameter `31`,
setting the foreground to the named color 1 (red). -/
theorem sgr_eval_38_2_31 :
    _apply_sgr styleReset [some 38, some 2, some 31]
      = { styleReset with fg := some (.named 1) } := by
  have h0 : _apply_sgr styleReset [some 38, some 2, some 31]
      = sgrLoop styleReset [some 38, some 2, some 31] := rfl
  rw [h0, sgrLoop_short _ 38 _ (Or.inl rfl) (by decide)]
  conv_lhs => rw [sgrLoop.eq_def]
  norm_num
  conv_lhs => rw [sgrLoop.eq_def]
  norm_num
  conv_lhs => rw [sgrLoop.eq_def]

/-- C8 (counterexample).  The claim "parameter shapes with insufficient
following parameters are ignored without error, changing no display
attribute" is false: applying the malformed `SGR 38;2;31` to the default
style changes the foreground (the leftover `31` is reinterpreted as the
standalone color code 31). -/
theorem ext_color_short_not_inert :
    ¬ (_apply_sgr styleReset [some 38, some 2, some 31] = styleReset) := by
  rw [sgr_eval_38_2_31]
  simp [styleReset]

/-- C8 (amended).  Extended color parameter consumption: `38`/`48`
followed by `5` and one more parameter sets the indexed-256 color,
`38`/`48` followed by `2` and three more parameters sets a true-color
triple, exactly the parameters used being consumed; the stored value is
clamped to 0-255 at resolution time (`≤ 255` passes through, larger
values clamp to 255; true-color channels clamp per channel).  A `38`/`48`
with insufficient following parameters is skipped without error, but the
following parameters are then interpreted as ordinary SGR parameters and
may change display attributes, as the concrete evaluation of `38;2;31`
shows. -/
theorem ext_color_param_consumption :
    (∀ st : Style, ∀ ps : List (Option Nat), ps ≠ [] → _apply_sgr st ps = sgrLoop st ps)
    ∧ (∀ st : Style, ∀ v : Nat, ∀ rest, sgrLoop st (some 38 :: some 5 :: some v :: rest)
        = sgrLoop { st with fg := some (.xterm (v : Int)) } rest)
    ∧ (∀ st : Style, ∀ v : Nat, ∀ rest, sgrLoop st (some 48 :: some 5 :: some v :: rest)
        = sgrLoop { st with bg := some (.xterm (v : Int)) } rest)
    ∧ (∀ st : Style, ∀ r g b : Nat, ∀ rest,
        sgrLoop st (some 38 :: some 2 :: some r :: some g :: some b :: rest)
        = sgrLoop { st with fg := some (.rgb (r : Int) (g : Int) (b : Int)) } rest)
    ∧ (∀ st : Style, ∀ r g b : Nat, ∀ rest,
        sgrLoop st (some 48 :: some 2 :: some r :: some g :: some b :: rest)
        = sgrLoop { st with bg := some (.rgb (r : Int) (g : Int) (b : Int)) } rest)
    ∧ (∀ v : Nat, v ≤ 255 → color_from_ansi (.xterm (v : Int)) false = xterm_color (v : Int))
    ∧ (∀ v : Nat, 255 < v → color_from_ansi (.xterm (v : Int)) false = xterm_color 255)
    ∧ (∀ r g b : Nat, color_from_ansi (.rgb (r : Int) (g : Int) (b : Int)) false
        = "#" ++ hex2 (min 255 r) ++ hex2 (min 255 g) ++ hex2 (min 255 b))
    ∧ (∀ st : Style, ∀ p : Nat, ∀ rest, (p = 38 ∨ p = 48) → extShapeShort rest = true →
        sgrLoop st (some p :: rest) = sgrLoop st rest)
    ∧ _apply_sgr styleReset [some 38, some 2, some 31]
        = { styleReset with fg := some (.named 1) } := by
  refine ⟨?_, sgrLoop_ext5_fg, sgrLoop_ext5_bg, sgrLoop_ext2_fg, sgrLoop_ext2_bg,
    ?_, ?_, ?_, fun st p rest hp hs => sgrLoop_short st p rest hp hs, sgr_eval_38_2_31⟩
  · intro st ps h
    rcases ps with _ | ⟨a, ps⟩
    · exact absurd rfl h
    · simp [_apply_sgr]
  · intro v hv
    show xterm_color (max 0 (min 255 (v : Int))) = xterm_color (v : Int)
    congr 1
    omega
  · intro v hv
    show xterm_color (max 0 (min 255 (v : Int))) = xterm_color 255
    congr 1
    omega
  · intro r g b
    show "#" ++ hex2 (clamp255 r) ++ hex2 (clamp255 g) ++ hex2 (clamp255 b) = _
    have hc : ∀ x : Nat, clamp255 (x : Int) = min 255 x := by
      intro x
      unfold clamp255
      omega
    rw [hc, hc, hc]

end RoD
